import Mathlib

/- Verification development for the fullcalendar event/occurrence plugin
   (src/fullcalendar/models.py and src/fullcalendar/templatetags/fullcalendar.py).

   Naive Python datetimes are embedded as proleptic-Gregorian calendar records.
   Datetime comparison and timedelta arithmetic in the Python code are modelled
   through the injective seconds encoding `toSeconds`. -/

namespace Fullcalendar

/-- Gregorian leap-year test, as in Python's `calendar.isleap`. -/
def isLeap (y : Nat) : Bool :=
  (y % 4 == 0 && y % 100 != 0) || y % 400 == 0

/-- Days in month `m0` (0-based: 0 = January, ..., 11 = December) of year `y`. -/
def daysInMonth0 (y m0 : Nat) : Nat :=
  if m0 = 1 then (if isLeap y then 29 else 28)
  else if m0 = 3 ∨ m0 = 5 ∨ m0 = 8 ∨ m0 = 10 then 30
  else 31

/-- Days in the months of year `y` strictly before 0-based month `m0`. -/
def daysBeforeMonth0 (y : Nat) : Nat → Nat
  | 0 => 0
  | m + 1 => daysBeforeMonth0 y m + daysInMonth0 y m

/-- Length of year `y` in days. -/
def daysInYear (y : Nat) : Nat := if isLeap y then 366 else 365

/-- Days in the years strictly before year `y` (proleptic Gregorian, from year 0). -/
def daysBeforeYear : Nat → Nat
  | 0 => 0
  | y + 1 => daysBeforeYear y + daysInYear y

/-- Naive datetime record mirroring Python's `datetime.datetime` fields used by
    the code under verification (microseconds are never set by this code). -/
structure DateTime where
  year : Nat
  month : Nat
  day : Nat
  hour : Nat
  minute : Nat
  second : Nat
deriving DecidableEq

/-- Day index of a datetime: days since 0000-01-01 in the proleptic calendar. -/
def toDays (dt : DateTime) : Nat :=
  daysBeforeYear dt.year + daysBeforeMonth0 dt.year (dt.month - 1) + (dt.day - 1)

/-- Injective seconds encoding of a naive datetime.  Python datetime comparison
    and subtraction are modelled on this encoding. -/
def toSeconds (dt : DateTime) : Nat :=
  toDays dt * 86400 + dt.hour * 3600 + dt.minute * 60 + dt.second

/-- Day index of the first day of absolute month `A` (that is, of year
    `A / 12`, 0-based month `A % 12`). -/
def monthStart (A : Nat) : Nat :=
  daysBeforeYear (A / 12) + daysBeforeMonth0 (A / 12) (A % 12)

/-- Field ranges accepted by Python's `datetime` constructor. -/
def DateTime.Valid (dt : DateTime) : Prop :=
  1 ≤ dt.month ∧ dt.month ≤ 12 ∧ 1 ≤ dt.day ∧
    dt.day ≤ daysInMonth0 dt.year (dt.month - 1) ∧
    dt.hour ≤ 23 ∧ dt.minute ≤ 59 ∧ dt.second ≤ 59

instance (dt : DateTime) : Decidable dt.Valid := by
  unfold DateTime.Valid; infer_instance

/-- Event record: the fields of `models.Event` the verified code reads
    (`id` is the database primary key used by foreign-key filters). -/
structure Event where
  id : Nat
  title : String
deriving DecidableEq

/-- Occurrence record mirroring `models.Occurrence`: optional free-text
    description, start/end time, owning event. -/
structure Occurrence where
  description : Option String
  start_time : DateTime
  end_time : DateTime
  event : Event
deriving DecidableEq

/-- Model of `OccurrenceManager.upcoming` (models.py lines 102-120): the stored
    occurrences are filtered by `start_time >= start` (with `start` defaulting
    to the current time).  Line 118 of the source calls
    `qs.filter(start_time__lte=end)` but discards the returned queryset, so the
    upper bound never takes effect; the model mirrors that dead computation. -/
def upcoming (occs : List Occurrence) (now : DateTime)
    (start : Option DateTime) (stop : Option DateTime) : List Occurrence :=
  let s := start.getD now
  let qs := occs.filter (fun o => decide (toSeconds s ≤ toSeconds o.start_time))
  match stop with
  | some e =>
      let _dead := qs.filter (fun o => decide (toSeconds o.start_time ≤ toSeconds e))
      qs
  | none => qs

/-- Model of `OccurrenceManager.daily_occurrences` (models.py lines 122-150):
    window `[datetime(y,m,d), datetime(y,m,d,23,59,59)]`, three OR-ed overlap
    conditions, then an optional owning-event filter. -/
def daily_occurrences (occs : List Occurrence) (dt : DateTime)
    (event : Option Event) : List Occurrence :=
  let start := DateTime.mk dt.year dt.month dt.day 0 0 0
  let stop := DateTime.mk dt.year dt.month dt.day 23 59 59
  let qs := occs.filter (fun o => decide (
    (toSeconds start ≤ toSeconds o.start_time ∧ toSeconds o.start_time ≤ toSeconds stop) ∨
    (toSeconds start ≤ toSeconds o.end_time ∧ toSeconds o.end_time ≤ toSeconds stop) ∨
    (toSeconds o.start_time < toSeconds start ∧ toSeconds stop < toSeconds o.end_time)))
  match event with
  | some e => qs.filter (fun o => decide (o.event.id = e.id))
  | none => qs

/-- Model of the `Occurrence.title` property (models.py lines 191-196):
    Python's `if self.description:` is false for `None` and for the empty
    string. -/
def Occurrence.title (o : Occurrence) : String :=
  match o.description with
  | none => o.event.title
  | some d => if d = "" then o.event.title else o.event.title ++ " (" ++ d ++ ")"

/-- Model of the `Occurrence.in_past` property (models.py lines 202-204):
    it returns `self.end_time > datetime.now()`. -/
def in_past (now : DateTime) (o : Occurrence) : Bool :=
  decide (toSeconds now < toSeconds o.end_time)

/-- Decimal rendering of a field, zero-padded to two digits, as produced by the
    strftime directives `%d`, `%H`, `%M` for in-range values. -/
def two (n : Nat) : String :=
  if n < 10 then "0" ++ Nat.repr n else Nat.repr n

/-- English weekday name of a datetime (strftime `%A` in the C locale).
    0000-03-01 (day index 60) was a Wednesday in the proleptic calendar, which
    fixes the offset: day index 366 (0001-01-01) maps to Monday. -/
def weekdayName (dt : DateTime) : String :=
  match (toDays dt + 5) % 7 with
  | 0 => "Monday"
  | 1 => "Tuesday"
  | 2 => "Wednesday"
  | 3 => "Thursday"
  | 4 => "Friday"
  | 5 => "Saturday"
  | _ => "Sunday"

/-- English month name (strftime `%B` in the C locale). -/
def monthName (m : Nat) : String :=
  match m with
  | 1 => "January"
  | 2 => "February"
  | 3 => "March"
  | 4 => "April"
  | 5 => "May"
  | 6 => "June"
  | 7 => "July"
  | 8 => "August"
  | 9 => "September"
  | 10 => "October"
  | 11 => "November"
  | _ => "December"

/-- Expansion of a single strftime directive character; only the directives
    appearing in the verified template tag are modelled. -/
def fmtDirective (c : Char) (dt : DateTime) : String :=
  if c = 'A' then weekdayName dt
  else if c = 'd' then two dt.day
  else if c = 'B' then monthName dt.month
  else if c = 'Y' then Nat.repr dt.year
  else if c = 'H' then two dt.hour
  else if c = 'M' then two dt.minute
  else String.mk [c]

/-- Interpreter for a strftime format string over its character list. -/
def strftimeAux (dt : DateTime) : List Char → String
  | [] => ""
  | '%' :: c :: rest => fmtDirective c dt ++ strftimeAux dt rest
  | c :: rest => String.mk [c] ++ strftimeAux dt rest

/-- Model of Python's `datetime.strftime` for the format strings used by the
    template tag. -/
def strftime (fmt : String) (dt : DateTime) : String :=
  strftimeAux dt fmt.toList

/-- Model of the `occurrence_duration` template tag (templatetags/fullcalendar.py
    lines 68-80).  `localtime` stands for `django.utils.timezone.localtime`,
    which converts each stored time to the active local timezone. -/
def occurrence_duration (localtime : DateTime → DateTime) (o : Occurrence) : String :=
  let start := localtime o.start_time
  let stop := localtime o.end_time
  let result := strftime "%A, %d %B %Y %H:%M" start
  if start.day = stop.day ∧ start.month = stop.month ∧ start.year = stop.year then
    result ++ (" - " ++ strftime "%H:%M" stop)
  else
    result ++ (" - " ++ strftime "%A, %d %B %Y %H:%M" stop)

/-- Format written out as the specification describes the same-day prefix and
    the cross-day rendering: "Weekday, DD Month YYYY HH:MM". -/
def specFullFormat (dt : DateTime) : String :=
  weekdayName dt ++ ", " ++ two dt.day ++ " " ++ monthName dt.month ++ " " ++
    Nat.repr dt.year ++ " " ++ two dt.hour ++ ":" ++ two dt.minute

/-- Recurrence frequency constants recognized by `dateutil.rrule`
    (YEARLY = 0 .. SECONDLY = 6). -/
inductive Freq
  | yearly
  | monthly
  | weekly
  | daily
  | hourly
  | minutely
  | secondly
deriving DecidableEq

/-- Keyword arguments (`rrule_params`) accepted by `Event.add_occurrences` and
    forwarded to `dateutil.rrule`: a `none` field models an absent dictionary
    key.  `until` bounds are datetimes, carried here in the seconds encoding. -/
structure RuleParams where
  freq : Option Freq := none
  interval : Option Nat := none
  count : Option Nat := none
  «until» : Option Nat := none
deriving DecidableEq

/-- Fuelled linear search: first index `i ≥ s` with `p i = true`, examining at
    most `fuel` candidates (every use supplies provably sufficient fuel). -/
def searchFrom (p : Nat → Bool) : Nat → Nat → Nat
  | 0, s => s
  | fuel + 1, s => if p s then s else searchFrom p fuel (s + 1)

/-- Absolute month index of a datetime: `12 * year + (month - 1)`. -/
def monthIndex (dt : DateTime) : Nat :=
  12 * dt.year + (dt.month - 1)

/-- Candidate test for MONTHLY/YEARLY recurrence from `dt0` with month step
    `stepM`: candidate `k` lands on absolute month `monthIndex dt0 + k * stepM`
    and is emitted iff that month contains day `dt0.day`.  This models
    `dateutil.rrule`'s skipping of months lacking the start date's day-of-month
    (e.g. a monthly rule started on Jan 31 skips February). -/
def validMonth (dt0 : DateTime) (stepM k : Nat) : Bool :=
  decide (dt0.day ≤
    daysInMonth0 ((monthIndex dt0 + k * stepM) / 12) ((monthIndex dt0 + k * stepM) % 12))

/-- Index (in candidate months) of the `n`-th month actually emitted by a
    MONTHLY/YEARLY rule.  The calendar repeats with period 400 years, so some
    valid candidate always lies within any window of 4800 candidate months,
    which bounds the search. -/
def kthValid (dt0 : DateTime) (stepM : Nat) : Nat → Nat
  | 0 => searchFrom (validMonth dt0 stepM) 4800 0
  | n + 1 => searchFrom (validMonth dt0 stepM) 4800 (kthValid dt0 stepM n + 1)

/-- Datetime on absolute month `A`, keeping `dt0`'s day and time of day. -/
def monthDate (dt0 : DateTime) (A : Nat) : DateTime :=
  ⟨A / 12, A % 12 + 1, dt0.day, dt0.hour, dt0.minute, dt0.second⟩

/-- Start time (seconds encoding) of the `k`-th occurrence generated by a rule
    with frequency `freq` and interval `iv` from `dtstart = dt0`, modelled from
    the documented semantics of `dateutil.rrule` without by-filters: constant
    steps for WEEKLY and finer, day-preserving month arithmetic with skipping
    for MONTHLY, and YEARLY as MONTHLY with a twelvefold step. -/
def candStart (dt0 : DateTime) (freq : Freq) (iv : Nat) (k : Nat) : Nat :=
  match freq with
  | .secondly => toSeconds dt0 + k * iv
  | .minutely => toSeconds dt0 + k * iv * 60
  | .hourly => toSeconds dt0 + k * iv * 3600
  | .daily => toSeconds dt0 + k * iv * 86400
  | .weekly => toSeconds dt0 + k * iv * 604800
  | .monthly => toSeconds (monthDate dt0 (monthIndex dt0 + kthValid dt0 iv k * iv))
  | .yearly =>
      toSeconds (monthDate dt0 (monthIndex dt0 + kthValid dt0 (12 * iv) k * (12 * iv)))

/-- Number of occurrences an `until`-bounded rule emits: the least `n` whose
    candidate start exceeds `untilSec` (`dateutil.rrule` emits occurrences
    while they are `<= until`).  Starts grow at least by one per step, so the
    answer is below `untilSec + 2` and the fuel suffices. -/
def stopAt (cand : Nat → Nat) (untilSec : Nat) : Nat :=
  searchFrom (fun n => decide (untilSec < cand n)) (untilSec + 2) 0

/-- Number of occurrences a bounded rule emits.  When both `count` and `until`
    are present `dateutil.rrule` only issues a deprecation warning and honours
    whichever bound is reached first; the unbounded case is never reached by
    `Event.add_occurrences` and is modelled as empty. -/
def rruleLen (cand : Nat → Nat) : Option Nat → Option Nat → Nat
  | some N, none => N
  | none, some U => stopAt cand U
  | some N, some U => min N (stopAt cand U)
  | none, none => 0

/-- Start times emitted by `dateutil.rrule(freq, dtstart, interval, count,
    until)` in the seconds encoding. -/
def rruleStarts (dt0 : DateTime) (freq : Freq) (iv : Nat)
    (count untilSec : Option Nat) : List Nat :=
  (List.range (rruleLen (candStart dt0 freq iv) count untilSec)).map
    (candStart dt0 freq iv)

/-- Model of `Event.add_occurrences` (models.py lines 51-74): default the
    frequency to DAILY; if neither `count` nor `until` was passed, create one
    occurrence with the literal start and end times; otherwise expand the rule,
    giving every generated start the original duration `end_time - start_time`.
    The occurrences are returned as (start, end) pairs in the seconds encoding
    (integers, since the duration may be negative). -/
def add_occurrences (start_time end_time : DateTime) (rule : RuleParams) :
    List (Int × Int) :=
  let freq := rule.freq.getD .daily
  if rule.count = none ∧ rule.«until» = none then
    [((toSeconds start_time : Int), (toSeconds end_time : Int))]
  else
    let delta : Int := (toSeconds end_time : Int) - (toSeconds start_time : Int)
    (rruleStarts start_time freq (rule.interval.getD 1) rule.count rule.«until»).map
      (fun s : Nat => ((s : Int), (s : Int) + delta))

/- Calendar lemmas. -/

theorem daysInMonth0_pos (y m0 : Nat) : 1 ≤ daysInMonth0 y m0 := by
  unfold daysInMonth0
  split_ifs <;> omega

theorem isLeap_add_400 (y : Nat) : isLeap (y + 400) = isLeap y := by
  have h4 : (y + 400) % 4 = y % 4 := by omega
  have h100 : (y + 400) % 100 = y % 100 := by omega
  have h400 : (y + 400) % 400 = y % 400 := by omega
  simp [isLeap, h4, h100, h400]

theorem isLeap_add_400_mul (y t : Nat) : isLeap (y + 400 * t) = isLeap y := by
  induction t with
  | zero => rfl
  | succ n ih =>
      have h : y + 400 * (n + 1) = (y + 400 * n) + 400 := by ring
      rw [h, isLeap_add_400, ih]

theorem daysInMonth0_congr {y y' : Nat} (h : isLeap y = isLeap y') (m0 : Nat) :
    daysInMonth0 y m0 = daysInMonth0 y' m0 := by
  simp [daysInMonth0, h]

theorem daysBeforeMonth0_congr {y y' : Nat} (h : isLeap y = isLeap y') (m0 : Nat) :
    daysBeforeMonth0 y m0 = daysBeforeMonth0 y' m0 := by
  induction m0 with
  | zero => rfl
  | succ m ih => simp [daysBeforeMonth0, ih, daysInMonth0_congr h]

theorem daysBeforeMonth0_twelve (y : Nat) : daysBeforeMonth0 y 12 = daysInYear y := by
  cases h : isLeap y
  · rw [@daysBeforeMonth0_congr y 1 (by rw [h]; rfl) 12]
    simp [daysInYear, h]
    rfl
  · rw [@daysBeforeMonth0_congr y 0 (by rw [h]; rfl) 12]
    simp [daysInYear, h]
    rfl

theorem monthStart_succ (A : Nat) :
    monthStart (A + 1) = monthStart A + daysInMonth0 (A / 12) (A % 12) := by
  rcases Nat.lt_or_ge (A % 12) 11 with h | h
  · have h1 : (A + 1) / 12 = A / 12 := by omega
    have h2 : (A + 1) % 12 = A % 12 + 1 := by omega
    simp only [monthStart, h1, h2, daysBeforeMonth0]
    omega
  · have h11 : A % 12 = 11 := by omega
    have h1 : (A + 1) / 12 = A / 12 + 1 := by omega
    have h2 : (A + 1) % 12 = 0 := by omega
    have h3 : daysBeforeMonth0 (A / 12) 11 + daysInMonth0 (A / 12) 11
        = daysInYear (A / 12) := by
      rw [← daysBeforeMonth0_twelve]; rfl
    have h0 : daysBeforeMonth0 (A / 12 + 1) 0 = 0 := rfl
    simp only [monthStart, h1, h2, h11, h0, daysBeforeYear]
    omega

theorem monthStart_add_le {A B : Nat} (h : A < B) :
    monthStart A + daysInMonth0 (A / 12) (A % 12) ≤ monthStart B := by
  induction B with
  | zero => omega
  | succ C ih =>
      rcases Nat.lt_or_ge A C with h2 | h2
      · refine le_trans (ih h2) ?_
        rw [monthStart_succ]
        omega
      · have hAC : A = C := by omega
        subst hAC
        rw [monthStart_succ]

theorem toDays_monthDate (dt0 : DateTime) (A : Nat) :
    toDays (monthDate dt0 A) = monthStart A + (dt0.day - 1) := by
  simp [toDays, monthDate, monthStart]

theorem toSeconds_monthDate_lt (dt0 : DateTime) {A B : Nat} (hAB : A < B)
    (hd1 : 1 ≤ dt0.day) (hdA : dt0.day ≤ daysInMonth0 (A / 12) (A % 12)) :
    toSeconds (monthDate dt0 A) < toSeconds (monthDate dt0 B) := by
  have h1 := monthStart_add_le hAB
  have h2 : toDays (monthDate dt0 A) < toDays (monthDate dt0 B) := by
    rw [toDays_monthDate, toDays_monthDate]
    omega
  simp only [toSeconds, monthDate] at h2 ⊢
  omega

/- Search and candidate lemmas for the recurrence model. -/

theorem searchFrom_spec (p : Nat → Bool) :
    ∀ fuel s j, j < fuel → p (s + j) = true →
      s ≤ searchFrom p fuel s ∧ p (searchFrom p fuel s) = true ∧
        ∀ i, s ≤ i → i < searchFrom p fuel s → p i = false := by
  intro fuel
  induction fuel with
  | zero => intro s j hj _; omega
  | succ fuel ih =>
      intro s j hj hp
      by_cases hs : p s = true
      · have hr : searchFrom p (fuel + 1) s = s := by simp [searchFrom, hs]
        rw [hr]
        exact ⟨le_rfl, hs, fun i h1 h2 => absurd h2 (by omega)⟩
      · have hs' : p s = false := by
          cases hps : p s
          · rfl
          · exact absurd hps hs
        have hr : searchFrom p (fuel + 1) s = searchFrom p fuel (s + 1) := by
          simp [searchFrom, hs']
        have hj1 : 1 ≤ j := by
          rcases Nat.eq_zero_or_pos j with h0 | h1
          · subst h0
            simp only [Nat.add_zero] at hp
            exact absurd hp (by simp [hs'])
          · exact h1
        obtain ⟨h1, h2, h3⟩ := ih (s + 1) (j - 1) (by omega)
          (by have he : s + 1 + (j - 1) = s + j := by omega
              rw [he]; exact hp)
        rw [hr]
        refine ⟨by omega, h2, ?_⟩
        intro i hi hilt
        rcases Nat.eq_or_lt_of_le hi with heq | hlt
        · rw [← heq]; exact hs'
        · exact h3 i (by omega) hilt

theorem validMonth_add_period (dt0 : DateTime) (stepM k : Nat) :
    validMonth dt0 stepM (k + 4800) = validMonth dt0 stepM k := by
  unfold validMonth
  have hA : monthIndex dt0 + (k + 4800) * stepM
      = (monthIndex dt0 + k * stepM) + 4800 * stepM := by ring
  rw [hA]
  have h12 : ((monthIndex dt0 + k * stepM) + 4800 * stepM) % 12
      = (monthIndex dt0 + k * stepM) % 12 := by omega
  have hdiv : ((monthIndex dt0 + k * stepM) + 4800 * stepM) / 12
      = (monthIndex dt0 + k * stepM) / 12 + 400 * stepM := by omega
  rw [h12, hdiv,
    daysInMonth0_congr (isLeap_add_400_mul ((monthIndex dt0 + k * stepM) / 12) stepM)]

theorem validMonth_zero (dt0 : DateTime) (stepM : Nat) (hv : dt0.Valid) :
    validMonth dt0 stepM 0 = true := by
  obtain ⟨h1, h2, _, h4, _⟩ := hv
  unfold validMonth monthIndex
  have e1 : (12 * dt0.year + (dt0.month - 1) + 0 * stepM) / 12 = dt0.year := by omega
  have e2 : (12 * dt0.year + (dt0.month - 1) + 0 * stepM) % 12 = dt0.month - 1 := by
    omega
  rw [e1, e2]
  simpa using h4

theorem validMonth_mul (dt0 : DateTime) (stepM : Nat) (hv : dt0.Valid) (j : Nat) :
    validMonth dt0 stepM (4800 * j) = true := by
  induction j with
  | zero => simpa using validMonth_zero dt0 stepM hv
  | succ n ih =>
      have h : 4800 * (n + 1) = 4800 * n + 4800 := by ring
      rw [h, validMonth_add_period]
      exact ih

theorem validMonth_exists (dt0 : DateTime) (stepM : Nat) (hv : dt0.Valid) (s : Nat) :
    ∃ j, j < 4800 ∧ validMonth dt0 stepM (s + j) = true := by
  refine ⟨(4800 - s % 4800) % 4800, by omega, ?_⟩
  obtain ⟨q, hq⟩ : ∃ q, s + (4800 - s % 4800) % 4800 = 4800 * q :=
    ⟨(s + (4800 - s % 4800) % 4800) / 4800, by omega⟩
  rw [hq]
  exact validMonth_mul dt0 stepM hv q

theorem nextValid_spec (dt0 : DateTime) (stepM : Nat) (hv : dt0.Valid) (s : Nat) :
    s ≤ searchFrom (validMonth dt0 stepM) 4800 s ∧
      validMonth dt0 stepM (searchFrom (validMonth dt0 stepM) 4800 s) = true := by
  obtain ⟨j, hj, hp⟩ := validMonth_exists dt0 stepM hv s
  have h := searchFrom_spec (validMonth dt0 stepM) 4800 s j hj hp
  exact ⟨h.1, h.2.1⟩

theorem kthValid_valid (dt0 : DateTime) (stepM : Nat) (hv : dt0.Valid) (n : Nat) :
    validMonth dt0 stepM (kthValid dt0 stepM n) = true := by
  cases n with
  | zero => exact (nextValid_spec dt0 stepM hv 0).2
  | succ m => exact (nextValid_spec dt0 stepM hv (kthValid dt0 stepM m + 1)).2

theorem kthValid_lt_succ (dt0 : DateTime) (stepM : Nat) (hv : dt0.Valid) (n : Nat) :
    kthValid dt0 stepM n < kthValid dt0 stepM (n + 1) := by
  have h := (nextValid_spec dt0 stepM hv (kthValid dt0 stepM n + 1)).1
  calc kthValid dt0 stepM n < kthValid dt0 stepM n + 1 := Nat.lt_succ_self _
    _ ≤ kthValid dt0 stepM (n + 1) := h

theorem monthCand_lt (dt0 : DateTime) (stepM : Nat) (hv : dt0.Valid)
    (hs : 1 ≤ stepM) (n : Nat) :
    toSeconds (monthDate dt0 (monthIndex dt0 + kthValid dt0 stepM n * stepM)) <
      toSeconds (monthDate dt0 (monthIndex dt0 + kthValid dt0 stepM (n + 1) * stepM)) := by
  have hlt := kthValid_lt_succ dt0 stepM hv n
  have hmul : kthValid dt0 stepM n * stepM < kthValid dt0 stepM (n + 1) * stepM :=
    Nat.mul_lt_mul_of_lt_of_le hlt (le_refl stepM) (by omega)
  have hAB : monthIndex dt0 + kthValid dt0 stepM n * stepM
      < monthIndex dt0 + kthValid dt0 stepM (n + 1) * stepM := by omega
  have hval := kthValid_valid dt0 stepM hv n
  have hdA : dt0.day ≤ daysInMonth0
      ((monthIndex dt0 + kthValid dt0 stepM n * stepM) / 12)
      ((monthIndex dt0 + kthValid dt0 stepM n * stepM) % 12) := by
    simpa [validMonth] using hval
  exact toSeconds_monthDate_lt dt0 hAB hv.2.2.1 hdA

theorem candStart_lt_succ (dt0 : DateTime) (freq : Freq) (iv : Nat)
    (hv : dt0.Valid) (hiv : 1 ≤ iv) (k : Nat) :
    candStart dt0 freq iv k < candStart dt0 freq iv (k + 1) := by
  cases freq with
  | secondly =>
      simp only [candStart]
      have h : (k + 1) * iv = k * iv + iv := by ring
      rw [h]; omega
  | minutely =>
      simp only [candStart]
      have h : (k + 1) * iv * 60 = k * iv * 60 + iv * 60 := by ring
      rw [h]; omega
  | hourly =>
      simp only [candStart]
      have h : (k + 1) * iv * 3600 = k * iv * 3600 + iv * 3600 := by ring
      rw [h]; omega
  | daily =>
      simp only [candStart]
      have h : (k + 1) * iv * 86400 = k * iv * 86400 + iv * 86400 := by ring
      rw [h]; omega
  | weekly =>
      simp only [candStart]
      have h : (k + 1) * iv * 604800 = k * iv * 604800 + iv * 604800 := by ring
      rw [h]; omega
  | monthly =>
      simp only [candStart]
      exact monthCand_lt dt0 iv hv hiv k
  | yearly =>
      simp only [candStart]
      exact monthCand_lt dt0 (12 * iv) hv (by omega) k

theorem candStart_lt_of_lt (dt0 : DateTime) (freq : Freq) (iv : Nat)
    (hv : dt0.Valid) (hiv : 1 ≤ iv) {a b : Nat} (h : a < b) :
    candStart dt0 freq iv a < candStart dt0 freq iv b := by
  induction b with
  | zero => omega
  | succ c ih =>
      rcases Nat.lt_or_ge a c with h2 | h2
      · exact lt_trans (ih h2) (candStart_lt_succ dt0 freq iv hv hiv c)
      · have hac : a = c := by omega
        subst hac
        exact candStart_lt_succ dt0 freq iv hv hiv a

theorem candStart_le_self (dt0 : DateTime) (freq : Freq) (iv : Nat)
    (hv : dt0.Valid) (hiv : 1 ≤ iv) (n : Nat) :
    n ≤ candStart dt0 freq iv n := by
  induction n with
  | zero => exact Nat.zero_le _
  | succ m ih =>
      have h := candStart_lt_succ dt0 freq iv hv hiv m
      omega

theorem stopAt_le (dt0 : DateTime) (freq : Freq) (iv U : Nat)
    (hv : dt0.Valid) (hiv : 1 ≤ iv) :
    ∀ k, k < stopAt (candStart dt0 freq iv) U → candStart dt0 freq iv k ≤ U := by
  intro k hk
  have hex : (fun n => decide (U < candStart dt0 freq iv n)) (0 + (U + 1)) = true := by
    have h1 : U + 1 ≤ candStart dt0 freq iv (U + 1) :=
      candStart_le_self dt0 freq iv hv hiv (U + 1)
    simp only [Nat.zero_add]
    simpa using (by omega : U < candStart dt0 freq iv (U + 1))
  have h := searchFrom_spec (fun n => decide (U < candStart dt0 freq iv n))
    (U + 2) 0 (U + 1) (by omega) hex
  unfold stopAt at hk
  have hfalse := h.2.2 k (Nat.zero_le k) hk
  simpa using hfalse

/- Formatting and query helper lemmas. -/

theorem strftime_full (dt : DateTime) :
    strftime "%A, %d %B %Y %H:%M" dt = specFullFormat dt := by
  apply String.ext
  simp [strftime, strftimeAux, fmtDirective, specFullFormat, String.data_append,
    String.toList]

theorem strftime_hm (dt : DateTime) :
    strftime "%H:%M" dt = two dt.hour ++ ":" ++ two dt.minute := by
  apply String.ext
  simp [strftime, strftimeAux, fmtDirective, String.data_append, String.toList]

theorem upcoming_eq_filter (occs : List Occurrence) (now : DateTime)
    (start stop : Option DateTime) :
    upcoming occs now start stop =
      occs.filter (fun o => decide (toSeconds (start.getD now) ≤ toSeconds o.start_time)) := by
  cases stop <;> rfl

/- Claim theorems. -/

/-- C1: when the rule parameters contain neither `count` nor `until`,
    `Event.add_occurrences` produces exactly one occurrence whose start and
    end are the literal `start_time` and `end_time` arguments, regardless of
    the frequency and interval fields present in the rule. -/
theorem add_occurrences_no_bounds_single (start_time end_time : DateTime)
    (rule : RuleParams) (hc : rule.count = none) (hu : rule.«until» = none) :
    add_occurrences start_time end_time rule =
      [((toSeconds start_time : Int), (toSeconds end_time : Int))] := by
  unfold add_occurrences
  rw [if_pos ⟨hc, hu⟩]

/-- Witness for C1 at a concrete input: a weekly rule with an interval but no
    `count`/`until` yields the single literal occurrence. -/
theorem add_occurrences_no_bounds_single_witness :
    (RuleParams.mk (some .weekly) (some 5) none none).count = none ∧
    (RuleParams.mk (some .weekly) (some 5) none none).«until» = none ∧
    add_occurrences ⟨1, 1, 1, 9, 0, 0⟩ ⟨1, 1, 1, 10, 0, 0⟩
        (RuleParams.mk (some .weekly) (some 5) none none) =
      [(31654800, 31658400)] := by
  refine ⟨rfl, rfl, ?_⟩
  rw [add_occurrences_no_bounds_single _ _ _ rfl rfl]
  decide

/-- C3: a rule with `count = N` (and no `until`) expands to exactly N pairs,
    with strictly increasing start times, each pair keeping the original
    duration `end_time - start_time`. -/
theorem add_occurrences_count_expansion (start_time end_time : DateTime)
    (rule : RuleParams) (N : Nat) (hc : rule.count = some N)
    (hu : rule.«until» = none) (_hN : 1 ≤ N)
    (hiv : 1 ≤ rule.interval.getD 1) (hv : start_time.Valid) :
    (add_occurrences start_time end_time rule).length = N ∧
    List.Pairwise (fun p q : Int × Int => p.1 < q.1)
      (add_occurrences start_time end_time rule) ∧
    ∀ p ∈ add_occurrences start_time end_time rule,
      p.2 = p.1 + ((toSeconds end_time : Int) - (toSeconds start_time : Int)) := by
  have hout : add_occurrences start_time end_time rule
      = ((List.range N).map
          (candStart start_time (rule.freq.getD .daily) (rule.interval.getD 1))).map
          (fun s : Nat => ((s : Int),
            (s : Int) + ((toSeconds end_time : Int) - (toSeconds start_time : Int)))) := by
    simp [add_occurrences, rruleStarts, rruleLen, hc, hu]
  refine ⟨?_, ?_, ?_⟩
  · rw [hout]; simp
  · rw [hout, List.map_map, List.pairwise_map]
    refine List.Pairwise.imp ?_ (List.pairwise_lt_range N)
    intro a b hab
    show ((candStart start_time (rule.freq.getD .daily) (rule.interval.getD 1) a : Int))
      < ((candStart start_time (rule.freq.getD .daily) (rule.interval.getD 1) b : Int))
    exact_mod_cast candStart_lt_of_lt start_time (rule.freq.getD .daily)
      (rule.interval.getD 1) hv hiv hab
  · rw [hout]
    intro p hp
    simp only [List.map_map, List.mem_map, Function.comp] at hp
    obtain ⟨a, _, rfl⟩ := hp
    rfl

/-- Witness for C3 at a concrete input: a monthly rule started on 1-01-31 with
    `count = 3` emits Jan 31, Mar 31 and May 31 (February and April are
    skipped), keeping the 90-minute duration. -/
theorem add_occurrences_count_expansion_witness :
    (1 ≤ 3 ∧ (⟨1, 1, 31, 10, 30, 0⟩ : DateTime).Valid) ∧
    ((add_occurrences ⟨1, 1, 31, 10, 30, 0⟩ ⟨1, 1, 31, 12, 0, 0⟩
        (RuleParams.mk (some .monthly) (some 1) (some 3) none)).length = 3 ∧
     List.Pairwise (fun p q : Int × Int => p.1 < q.1)
       (add_occurrences ⟨1, 1, 31, 10, 30, 0⟩ ⟨1, 1, 31, 12, 0, 0⟩
         (RuleParams.mk (some .monthly) (some 1) (some 3) none)) ∧
     ∀ p ∈ add_occurrences ⟨1, 1, 31, 10, 30, 0⟩ ⟨1, 1, 31, 12, 0, 0⟩
         (RuleParams.mk (some .monthly) (some 1) (some 3) none),
       p.2 = p.1 + ((toSeconds ⟨1, 1, 31, 12, 0, 0⟩ : Int)
         - (toSeconds ⟨1, 1, 31, 10, 30, 0⟩ : Int))) :=
  ⟨⟨by decide, by decide⟩,
    add_occurrences_count_expansion ⟨1, 1, 31, 10, 30, 0⟩ ⟨1, 1, 31, 12, 0, 0⟩
      (RuleParams.mk (some .monthly) (some 1) (some 3) none) 3 rfl rfl
      (by decide) (by decide) (by decide)⟩

/-- C4 counterexample: with both `count = 3` and `until` supplied, the code
    does not fail and occurrences ARE created — `dateutil.rrule` only emits a
    deprecation warning and honours both bounds, so here the `until` bound cuts
    the expansion to two occurrences (1-01-01 00:00:00 and 00:00:01, the
    `until` instant being 00:00:01 itself). -/
theorem add_occurrences_both_bounds_counterexample :
    add_occurrences ⟨1, 1, 1, 0, 0, 0⟩ ⟨1, 1, 1, 1, 0, 0⟩
        (RuleParams.mk (some .secondly) (some 1) (some 3) (some 31622401)) =
      [(31622400, 31626000), (31622401, 31626001)] := by
  decide

/-- C4 (amended): when both `count` and `until` are supplied the expander does
    not fail; it creates occurrences honouring whichever bound is reached
    first — at most `count` many, each starting no later than `until`. -/
theorem add_occurrences_both_bounds (start_time end_time : DateTime)
    (rule : RuleParams) (N U : Nat) (hc : rule.count = some N)
    (hu : rule.«until» = some U) (hiv : 1 ≤ rule.interval.getD 1)
    (hv : start_time.Valid) :
    (add_occurrences start_time end_time rule).length ≤ N ∧
    ∀ p ∈ add_occurrences start_time end_time rule, p.1 ≤ (U : Int) := by
  have hout : add_occurrences start_time end_time rule
      = ((List.range (min N
            (stopAt (candStart start_time (rule.freq.getD .daily) (rule.interval.getD 1)) U))).map
          (candStart start_time (rule.freq.getD .daily) (rule.interval.getD 1))).map
          (fun s : Nat => ((s : Int),
            (s : Int) + ((toSeconds end_time : Int) - (toSeconds start_time : Int)))) := by
    simp [add_occurrences, rruleStarts, rruleLen, hc, hu]
  constructor
  · rw [hout]
    simp [Nat.min_le_left]
  · rw [hout]
    intro p hp
    simp only [List.map_map, List.mem_map, Function.comp] at hp
    obtain ⟨a, ha, rfl⟩ := hp
    simp only [List.mem_range] at ha
    have hle : candStart start_time (rule.freq.getD .daily) (rule.interval.getD 1) a ≤ U :=
      stopAt_le start_time (rule.freq.getD .daily) (rule.interval.getD 1) U hv hiv a
        (lt_of_lt_of_le ha (Nat.min_le_right _ _))
    show ((candStart start_time (rule.freq.getD .daily) (rule.interval.getD 1) a : Int))
      ≤ (U : Int)
    exact_mod_cast hle

/-- Witness for the amended C4 at a concrete input: an every-other-day rule with
    `count = 5` and an `until` four days out yields at most five occurrences,
    all starting no later than `until`. -/
theorem add_occurrences_both_bounds_witness :
    (1 ≤ (RuleParams.mk (some .daily) (some 2) (some 5) (some 32000000)).interval.getD 1 ∧
      (⟨1, 1, 1, 0, 0, 0⟩ : DateTime).Valid) ∧
    ((add_occurrences ⟨1, 1, 1, 0, 0, 0⟩ ⟨1, 1, 1, 1, 0, 0⟩
        (RuleParams.mk (some .daily) (some 2) (some 5) (some 32000000))).length ≤ 5 ∧
     ∀ p ∈ add_occurrences ⟨1, 1, 1, 0, 0, 0⟩ ⟨1, 1, 1, 1, 0, 0⟩
         (RuleParams.mk (some .daily) (some 2) (some 5) (some 32000000)),
       p.1 ≤ ((32000000 : Nat) : Int)) :=
  ⟨⟨by decide, by decide⟩,
    add_occurrences_both_bounds ⟨1, 1, 1, 0, 0, 0⟩ ⟨1, 1, 1, 1, 0, 0⟩
      (RuleParams.mk (some .daily) (some 2) (some 5) (some 32000000)) 5 32000000
      rfl rfl (by decide) (by decide)⟩

/-- C2: evaluation of `upcoming` at a failing input.  The stored occurrence
    starts on 1-01-02, strictly after the supplied horizon 1-01-01 12:00, yet
    it is returned: line 118 of models.py discards the result of
    `qs.filter(start_time__lte=end)`, so the documented upper bound is never
    applied. -/
theorem upcoming_end_bound_ignored :
    upcoming [⟨none, ⟨1, 1, 2, 0, 0, 0⟩, ⟨1, 1, 2, 1, 0, 0⟩, ⟨7, "e"⟩⟩]
        ⟨1, 1, 1, 0, 0, 0⟩ (some ⟨1, 1, 1, 0, 0, 0⟩) (some ⟨1, 1, 1, 12, 0, 0⟩) =
      [⟨none, ⟨1, 1, 2, 0, 0, 0⟩, ⟨1, 1, 2, 1, 0, 0⟩, ⟨7, "e"⟩⟩] ∧
    toSeconds ⟨1, 1, 1, 12, 0, 0⟩ < toSeconds (⟨1, 1, 2, 0, 0, 0⟩ : DateTime) := by
  decide

/-- C5: a stored occurrence is in `daily_occurrences(day)` iff its start lies
    in the window `[midnight(day), 23:59:59(day)]`, or its end lies in that
    window, or it starts strictly before midnight and ends strictly after
    23:59:59; with an event filter the result is further restricted to
    occurrences owned by that event. -/
theorem daily_occurrences_overlap (occs : List Occurrence) (day : DateTime)
    (ev : Event) (o : Occurrence) (ho : o ∈ occs) :
    (o ∈ daily_occurrences occs day none ↔
      ((toSeconds ⟨day.year, day.month, day.day, 0, 0, 0⟩ ≤ toSeconds o.start_time ∧
        toSeconds o.start_time ≤ toSeconds ⟨day.year, day.month, day.day, 23, 59, 59⟩) ∨
       (toSeconds ⟨day.year, day.month, day.day, 0, 0, 0⟩ ≤ toSeconds o.end_time ∧
        toSeconds o.end_time ≤ toSeconds ⟨day.year, day.month, day.day, 23, 59, 59⟩) ∨
       (toSeconds o.start_time < toSeconds ⟨day.year, day.month, day.day, 0, 0, 0⟩ ∧
        toSeconds ⟨day.year, day.month, day.day, 23, 59, 59⟩ < toSeconds o.end_time))) ∧
    (o ∈ daily_occurrences occs day (some ev) ↔
      (((toSeconds ⟨day.year, day.month, day.day, 0, 0, 0⟩ ≤ toSeconds o.start_time ∧
        toSeconds o.start_time ≤ toSeconds ⟨day.year, day.month, day.day, 23, 59, 59⟩) ∨
       (toSeconds ⟨day.year, day.month, day.day, 0, 0, 0⟩ ≤ toSeconds o.end_time ∧
        toSeconds o.end_time ≤ toSeconds ⟨day.year, day.month, day.day, 23, 59, 59⟩) ∨
       (toSeconds o.start_time < toSeconds ⟨day.year, day.month, day.day, 0, 0, 0⟩ ∧
        toSeconds ⟨day.year, day.month, day.day, 23, 59, 59⟩ < toSeconds o.end_time)) ∧
       o.event.id = ev.id)) := by
  constructor
  · simp [daily_occurrences, List.mem_filter, ho]
  · have h : daily_occurrences occs day (some ev) =
        (occs.filter (fun o => decide (
          (toSeconds ⟨day.year, day.month, day.day, 0, 0, 0⟩ ≤ toSeconds o.start_time ∧
            toSeconds o.start_time ≤ toSeconds ⟨day.year, day.month, day.day, 23, 59, 59⟩) ∨
          (toSeconds ⟨day.year, day.month, day.day, 0, 0, 0⟩ ≤ toSeconds o.end_time ∧
            toSeconds o.end_time ≤ toSeconds ⟨day.year, day.month, day.day, 23, 59, 59⟩) ∨
          (toSeconds o.start_time < toSeconds ⟨day.year, day.month, day.day, 0, 0, 0⟩ ∧
            toSeconds ⟨day.year, day.month, day.day, 23, 59, 59⟩ < toSeconds o.end_time)))).filter
          (fun o => decide (o.event.id = ev.id)) := rfl
    rw [h, List.mem_filter, List.mem_filter]
    simp [ho]

/-- Witness for C5 at a concrete input: an occurrence spanning 1-03-10 to
    1-03-20 overlaps the day 1-03-15 by the third (spanning) condition. -/
theorem daily_occurrences_overlap_witness :
    (⟨none, ⟨1, 3, 10, 0, 0, 0⟩, ⟨1, 3, 20, 0, 0, 0⟩, ⟨7, "e"⟩⟩ : Occurrence) ∈
      [(⟨none, ⟨1, 3, 10, 0, 0, 0⟩, ⟨1, 3, 20, 0, 0, 0⟩, ⟨7, "e"⟩⟩ : Occurrence),
       ⟨none, ⟨1, 3, 16, 0, 0, 0⟩, ⟨1, 3, 17, 0, 0, 0⟩, ⟨7, "e"⟩⟩] ∧
    ((⟨none, ⟨1, 3, 10, 0, 0, 0⟩, ⟨1, 3, 20, 0, 0, 0⟩, ⟨7, "e"⟩⟩ : Occurrence) ∈
      daily_occurrences
        [(⟨none, ⟨1, 3, 10, 0, 0, 0⟩, ⟨1, 3, 20, 0, 0, 0⟩, ⟨7, "e"⟩⟩ : Occurrence),
         ⟨none, ⟨1, 3, 16, 0, 0, 0⟩, ⟨1, 3, 17, 0, 0, 0⟩, ⟨7, "e"⟩⟩]
        ⟨1, 3, 15, 14, 30, 0⟩ none ↔
      ((toSeconds ⟨1, 3, 15, 0, 0, 0⟩ ≤ toSeconds (⟨1, 3, 10, 0, 0, 0⟩ : DateTime) ∧
        toSeconds (⟨1, 3, 10, 0, 0, 0⟩ : DateTime) ≤ toSeconds ⟨1, 3, 15, 23, 59, 59⟩) ∨
       (toSeconds ⟨1, 3, 15, 0, 0, 0⟩ ≤ toSeconds (⟨1, 3, 20, 0, 0, 0⟩ : DateTime) ∧
        toSeconds (⟨1, 3, 20, 0, 0, 0⟩ : DateTime) ≤ toSeconds ⟨1, 3, 15, 23, 59, 59⟩) ∨
       (toSeconds (⟨1, 3, 10, 0, 0, 0⟩ : DateTime) < toSeconds ⟨1, 3, 15, 0, 0, 0⟩ ∧
        toSeconds ⟨1, 3, 15, 23, 59, 59⟩ < toSeconds (⟨1, 3, 20, 0, 0, 0⟩ : DateTime)))) :=
  ⟨by decide,
    (daily_occurrences_overlap
      [⟨none, ⟨1, 3, 10, 0, 0, 0⟩, ⟨1, 3, 20, 0, 0, 0⟩, ⟨7, "e"⟩⟩,
       ⟨none, ⟨1, 3, 16, 0, 0, 0⟩, ⟨1, 3, 17, 0, 0, 0⟩, ⟨7, "e"⟩⟩]
      ⟨1, 3, 15, 14, 30, 0⟩ ⟨7, "e"⟩
      ⟨none, ⟨1, 3, 10, 0, 0, 0⟩, ⟨1, 3, 20, 0, 0, 0⟩, ⟨7, "e"⟩⟩ (by decide)).1⟩

/-- C6: `upcoming(T)` includes every stored occurrence starting exactly at `T`
    and excludes every one starting strictly before `T`; with no reference time
    the current time is used. -/
theorem upcoming_reference_boundary (occs : List Occurrence) (now T : DateTime)
    (stop : Option DateTime) (o : Occurrence) (ho : o ∈ occs) :
    (toSeconds o.start_time = toSeconds T → o ∈ upcoming occs now (some T) stop) ∧
    (toSeconds o.start_time < toSeconds T → o ∉ upcoming occs now (some T) stop) ∧
    upcoming occs now none stop = upcoming occs now (some now) stop := by
  refine ⟨?_, ?_, ?_⟩
  · intro h
    rw [upcoming_eq_filter]
    simp [List.mem_filter, ho, h]
  · intro h
    rw [upcoming_eq_filter]
    simp [List.mem_filter, ho]
    omega
  · rw [upcoming_eq_filter, upcoming_eq_filter]
    rfl

/-- Witness for C6 at a concrete input: with reference time 1-01-02 00:00, the
    occurrence starting exactly then is included and the one starting one
    second earlier is excluded. -/
theorem upcoming_reference_boundary_witness :
    (⟨none, ⟨1, 1, 2, 0, 0, 0⟩, ⟨1, 1, 2, 1, 0, 0⟩, ⟨7, "e"⟩⟩ : Occurrence) ∈
      [(⟨none, ⟨1, 1, 2, 0, 0, 0⟩, ⟨1, 1, 2, 1, 0, 0⟩, ⟨7, "e"⟩⟩ : Occurrence),
       ⟨none, ⟨1, 1, 1, 23, 59, 59⟩, ⟨1, 1, 2, 1, 0, 0⟩, ⟨7, "e"⟩⟩] ∧
    toSeconds (⟨1, 1, 2, 0, 0, 0⟩ : DateTime) = toSeconds (⟨1, 1, 2, 0, 0, 0⟩ : DateTime) ∧
    (⟨none, ⟨1, 1, 2, 0, 0, 0⟩, ⟨1, 1, 2, 1, 0, 0⟩, ⟨7, "e"⟩⟩ : Occurrence) ∈
      upcoming
        [(⟨none, ⟨1, 1, 2, 0, 0, 0⟩, ⟨1, 1, 2, 1, 0, 0⟩, ⟨7, "e"⟩⟩ : Occurrence),
         ⟨none, ⟨1, 1, 1, 23, 59, 59⟩, ⟨1, 1, 2, 1, 0, 0⟩, ⟨7, "e"⟩⟩]
        ⟨1, 1, 1, 0, 0, 0⟩ (some ⟨1, 1, 2, 0, 0, 0⟩) none :=
  ⟨by decide, rfl,
    (upcoming_reference_boundary
      [⟨none, ⟨1, 1, 2, 0, 0, 0⟩, ⟨1, 1, 2, 1, 0, 0⟩, ⟨7, "e"⟩⟩,
       ⟨none, ⟨1, 1, 1, 23, 59, 59⟩, ⟨1, 1, 2, 1, 0, 0⟩, ⟨7, "e"⟩⟩]
      ⟨1, 1, 1, 0, 0, 0⟩ ⟨1, 1, 2, 0, 0, 0⟩ none
      ⟨none, ⟨1, 1, 2, 0, 0, 0⟩, ⟨1, 1, 2, 1, 0, 0⟩, ⟨7, "e"⟩⟩ (by decide)).1 rfl⟩

/-- C7: `daily_occurrences` depends only on the date component of its argument;
    the time-of-day fields never influence the result. -/
theorem daily_occurrences_date_component (occs : List Occurrence) (dt : DateTime)
    (ev : Option Event) :
    daily_occurrences occs dt ev =
      daily_occurrences occs ⟨dt.year, dt.month, dt.day, 0, 0, 0⟩ ev := rfl

/-- C8: the formatted date-range string is
    "Weekday, DD Month YYYY HH:MM - HH:MM" when the local start and end fall on
    the same calendar day (same day, month and year), and
    "Weekday, DD Month YYYY HH:MM - Weekday, DD Month YYYY HH:MM" otherwise. -/
theorem occurrence_duration_format (localtime : DateTime → DateTime)
    (o : Occurrence) :
    occurrence_duration localtime o =
      if (localtime o.start_time).day = (localtime o.end_time).day ∧
          (localtime o.start_time).month = (localtime o.end_time).month ∧
          (localtime o.start_time).year = (localtime o.end_time).year then
        specFullFormat (localtime o.start_time) ++ " - " ++
          (two (localtime o.end_time).hour ++ ":" ++ two (localtime o.end_time).minute)
      else
        specFullFormat (localtime o.start_time) ++ " - " ++
          specFullFormat (localtime o.end_time) := by
  unfold occurrence_duration
  simp only [strftime_full, strftime_hm]
  split_ifs with h
  · apply String.ext
    simp [String.data_append]
  · apply String.ext
    simp [String.data_append]

/-- C9: the display title is the owning event's title when the occurrence has
    no (truthy) description, and the event's title followed by the description
    in parentheses otherwise. -/
theorem title_with_description (o : Occurrence) :
    ((o.description = none ∨ o.description = some "") → o.title = o.event.title) ∧
    (∀ d, o.description = some d → d ≠ "" →
      o.title = o.event.title ++ " (" ++ d ++ ")") := by
  constructor
  · rintro (h | h) <;> simp [Occurrence.title, h]
  · intro d hd hne
    simp [Occurrence.title, hd, hne]

/-- Witness for C9 at concrete inputs: with description "room 3" the title is
    suffixed in parentheses; with no description it is the bare event title. -/
theorem title_with_description_witness :
    (⟨some "room 3", ⟨1, 1, 1, 0, 0, 0⟩, ⟨1, 1, 1, 1, 0, 0⟩, ⟨7, "Party"⟩⟩ :
        Occurrence).description = some "room 3" ∧
    (⟨some "room 3", ⟨1, 1, 1, 0, 0, 0⟩, ⟨1, 1, 1, 1, 0, 0⟩, ⟨7, "Party"⟩⟩ :
        Occurrence).title = "Party (room 3)" := by
  refine ⟨rfl, ?_⟩
  rw [(title_with_description
    ⟨some "room 3", ⟨1, 1, 1, 0, 0, 0⟩, ⟨1, 1, 1, 1, 0, 0⟩, ⟨7, "Party"⟩⟩).2
    "room 3" rfl (by decide)]
  decide

/-- C10: `in_past` is true exactly when the occurrence's end time is strictly
    after the current time — despite its name it holds for occurrences that
    have not yet ended, and is false for occurrences lying entirely in the
    past. -/
theorem in_past_means_not_ended (now : DateTime) (o : Occurrence) :
    (in_past now o = true ↔ toSeconds now < toSeconds o.end_time) ∧
    (in_past now o = false ↔ toSeconds o.end_time ≤ toSeconds now) := by
  constructor
  · simp [in_past]
  · simp [in_past]

end Fullcalendar
